import Mathlib

/-!
Verification of the PDF Extractor Tool pipeline (Main8_Copy_Right.py).

The development shallowly embeds the file-orchestration core of the tool:
link extraction, filesystem reconciliation, document numbering, PDF
transformation and report writing.  Python strings are Lean strings,
Python dicts that are built by insertion in iteration order are embedded
as association lists (lookup finds the first, i.e. the inserted, binding;
every dict in the source is only ever written once per key or rewritten
with the same value, so association-list lookup agrees with dict lookup),
and Python lists are Lean lists.  External library collaborators
(urllib percent-decoding plus os.path.normpath, os.path.exists, the PDF
and spreadsheet libraries) are modelled as abstract parameters or as
abstract page lists, exactly as the specification declares them opaque.
-/

namespace PdfExtractor

/-- Model of os.path.basename for the paths this tool handles: the part of
the path after the last separator character. -/
def basename (p : String) : String :=
  String.mk ((p.data.reverse.takeWhile (fun ch => ch ≠ '/')).reverse)

/-- Model of Python str.lower, mapping each character to lower case. -/
def pyLower (s : String) : String :=
  String.mk (s.data.map Char.toLower)

/-- Model of Python str.endswith: the candidate suffix is a suffix of the
character sequence. -/
def pyEndsWith (s suffix : String) : Bool :=
  decide (suffix.data <:+ s.data)

/-- Model of the Python format specifier 03d applied to a natural number:
the decimal rendering, left padded with zeros to width 3. -/
def pad3 (n : Nat) : String :=
  let s := toString n
  if 3 ≤ s.length then s else String.mk (List.replicate (3 - s.length) '0') ++ s

/-- The localized label used throughout the source, with its trailing
space: the Arabic for Document Number. -/
def localizedLabel : String := "المستند رقم "

/-!  Document numbering.

process_pdfs (lines 492 to 501) and save_links_to_xlsx (lines 366 to 375)
each run the same loop: iterate over the resolved links, take the basename
of each target, and the first time a basename is seen bind it to the
current counter value and increment the counter (the counter starts at 1).
Each loop is embedded separately, from its own source location, because
claim C4 is exactly that the two independent recomputations agree.  -/

/-- Numbering loop of process_pdfs, lines 492 to 501: the accumulator m is
the dict built so far and c is doc_number_counter. -/
def buildNumsT : List String → List (String × Nat) → Nat → List (String × Nat)
  | [], m, _ => m
  | f :: rest, m, c =>
    match m.lookup f with
    | some _ => buildNumsT rest m c
    | none => buildNumsT rest (m ++ [(f, c)]) (c + 1)

/-- Numbering loop of save_links_to_xlsx, lines 366 to 375; textually the
same algorithm, recomputed independently by the report writer. -/
def buildNumsR : List String → List (String × Nat) → Nat → List (String × Nat)
  | [], m, _ => m
  | f :: rest, m, c =>
    match m.lookup f with
    | some _ => buildNumsR rest m c
    | none => buildNumsR rest (m ++ [(f, c)]) (c + 1)

/-- unique_filenames as computed by process_pdfs: basename to document
number, counter starting at 1.  A resolved link is a pair of link text and
target path; only the target's basename enters the numbering. -/
def unique_filenames (pdfs : List (String × String)) : List (String × Nat) :=
  buildNumsT (pdfs.map (fun p => basename p.2)) [] 1

/-- unique_filenames as recomputed by save_links_to_xlsx. -/
def unique_filenames_report (pdfs : List (String × String)) : List (String × Nat) :=
  buildNumsR (pdfs.map (fun p => basename p.2)) [] 1

/-- Destination filename chosen by process_pdfs (lines 506 to 517) for one
resolved target, given the numbering map: the localized label, the
zero-padded number and the basename when renaming is enabled, and the bare
basename otherwise. -/
def process_pdfs_new_name (enable_renaming : Bool) (m : List (String × Nat))
    (url : String) : String :=
  let filename := basename url
  let doc_number := (m.lookup filename).getD 0
  if enable_renaming then
    localizedLabel ++ pad3 doc_number ++ " - " ++ filename
  else
    filename

/-- The destination filename the PDF transformer actually uses for one
resolved link target. -/
def transformerDestFilename (enable_renaming : Bool)
    (existing : List (String × String)) (url : String) : String :=
  process_pdfs_new_name enable_renaming (unique_filenames existing) url

/-- renamed_files dict built by save_links_to_xlsx, lines 377 to 388: maps
each resolved target to the renamed filename, built unconditionally with
the localized label prefix. -/
def renamed_files (existing : List (String × String)) : List (String × String) :=
  existing.map (fun p =>
    let filename := basename p.2
    let doc_number := ((unique_filenames_report existing).lookup filename).getD 0
    (p.2, localizedLabel ++ pad3 doc_number ++ " - " ++ filename))

/-- The destination filename save_links_to_xlsx embeds in a Found row's
hyperlink, line 402: renamed_files.get with the bare filename as
default. -/
def reportLinkFilename (existing : List (String × String)) (url : String) : String :=
  ((renamed_files existing).lookup url).getD (basename url)

/-!  Cover page text, create_cover_page lines 441 to 486.

The drawn string is composed at lines 448 to 451: formatted_number is the
plain decimal rendering of the document number, with no format specifier,
and arabic_text is the localized label followed by formatted_number.
Shaping, bidi reordering and font selection are opaque presentation
collaborators; the composed logical text is what the page carries. -/

/-- formatted_number at line 448: the plain decimal string of the number,
not zero padded. -/
def formatted_number (doc_number : Nat) : String := toString doc_number

/-- arabic_text at line 451: the text composed for the cover page. -/
def coverPageText (doc_number : Nat) : String :=
  localizedLabel ++ formatted_number doc_number

/-!  Claim C4: the two numbering recomputations agree.  -/

theorem buildNumsR_eq_buildNumsT (bs : List String) :
    ∀ (m : List (String × Nat)) (c : Nat), buildNumsR bs m c = buildNumsT bs m c := by
  induction bs with
  | nil => intro m c; rfl
  | cons f rest ih =>
    intro m c
    cases h : m.lookup f with
    | some v => simp [buildNumsR, buildNumsT, h, ih]
    | none => simp [buildNumsR, buildNumsT, h, ih]

/-- C4: for every resolved hyperlink sequence, the basename-to-number
mapping recomputed by the report writer equals the mapping computed by the
PDF transformer from the same sequence. -/
theorem report_numbering_eq_transformer_numbering (pdfs : List (String × String)) :
    unique_filenames_report pdfs = unique_filenames pdfs := by
  unfold unique_filenames_report unique_filenames
  exact buildNumsR_eq_buildNumsT _ [] 1

/-!  Claim C1: the report writer's hyperlink destination versus the
transformer's actual destination.  save_links_to_xlsx builds renamed_files
with the localized prefix unconditionally, while process_pdfs only adds
the prefix when renaming is enabled, so with renaming disabled the two
destinations diverge.  -/

/-- C1: with renaming disabled, the transformer writes the bare basename
while the report's Found-row hyperlink still names the prefixed file, so
the report points at a file the transformer never wrote.  Evaluation of
both code paths at the failing input. -/
theorem report_link_diverges_from_written_file :
    transformerDestFilename false [("t", "a.pdf")] "a.pdf" = "a.pdf" ∧
    reportLinkFilename [("t", "a.pdf")] "a.pdf" = "المستند رقم 001 - a.pdf" ∧
    reportLinkFilename [("t", "a.pdf")] "a.pdf" ≠
      transformerDestFilename false [("t", "a.pdf")] "a.pdf" := by
  refine ⟨rfl, rfl, ?_⟩
  decide

/-!  Claim C2: the cover page text.  -/

/-- C2 counterexample: for document number 1 the composed cover page text
is the label followed by the plain decimal 1; the zero-padded rendering
001 does not occur in it, so the cover does not carry the number
zero-padded to 3 digits. -/
theorem cover_page_number_not_padded :
    coverPageText 1 = "المستند رقم 1" ∧
    ¬ ("001".data <:+: (coverPageText 1).data) := by
  refine ⟨rfl, ?_⟩
  decide

theorem string_data_append (s t : String) : (s ++ t).data = s.data ++ t.data := by
  cases s; cases t; rfl

/-- C2 amended: the composed cover page text contains the localized label
together with the document number rendered as a plain decimal string,
without zero padding: the label is a prefix and the plain number a suffix
of the text. -/
theorem cover_page_text_label_and_plain_number (doc_number : Nat) :
    coverPageText doc_number = localizedLabel ++ formatted_number doc_number ∧
    localizedLabel.data <+: (coverPageText doc_number).data ∧
    (formatted_number doc_number).data <:+ (coverPageText doc_number).data := by
  refine ⟨rfl, ?_, ?_⟩
  · exact ⟨(formatted_number doc_number).data,
      (string_data_append localizedLabel (formatted_number doc_number)).symm⟩
  · exact ⟨localizedLabel.data,
      (string_data_append localizedLabel (formatted_number doc_number)).symm⟩

/-!  Association-list lookup lemmas used throughout.  -/

theorem lookup_append {β : Type} (m₁ m₂ : List (String × β)) (a : String) :
    (m₁ ++ m₂).lookup a = (m₁.lookup a).or (m₂.lookup a) := by
  induction m₁ with
  | nil => simp [List.lookup, Option.or]
  | cons kb t ih =>
    obtain ⟨k, b⟩ := kb
    simp only [List.cons_append, List.lookup]
    cases hak : a == k with
    | true => simp [Option.or]
    | false => simpa using ih

theorem mem_of_lookup_eq_some {β : Type} :
    ∀ (l : List (String × β)) (a : String) (v : β),
    l.lookup a = some v → (a, v) ∈ l := by
  intro l
  induction l with
  | nil => intro a v h; simp [List.lookup] at h
  | cons kb t ih =>
    intro a v h
    obtain ⟨k, b⟩ := kb
    simp only [List.lookup] at h
    cases hak : a == k with
    | true =>
      rw [hak] at h
      have hk : a = k := by simpa using hak
      have hv : b = v := by simpa using h
      simp [hk, hv]
    | false =>
      rw [hak] at h
      exact List.mem_cons_of_mem _ (ih a v h)

theorem lookup_append_single_isNone (m : List (String × Nat)) (f a : String) (c : Nat) :
    ((m ++ [(f, c)]).lookup a).isNone = ((a != f) && (m.lookup a).isNone) := by
  rw [lookup_append]
  cases hm : m.lookup a with
  | some v => simp [Option.or]
  | none =>
    cases haf : a == f with
    | true => simp [Option.or, List.lookup, haf, bne]
    | false => simp [Option.or, List.lookup, haf, bne]

theorem range'_one_concat (s n : Nat) :
    List.range' s (n + 1) = List.range' s n ++ [s + n] := by
  simpa using @List.range'_concat 1 s n

/-!  First-encounter deduplication, used to state in what order the
numbering walks the distinct basenames.  -/

/-- The distinct elements of a list in order of first encounter. -/
def firstOccur : List String → List String
  | [] => []
  | x :: xs => x :: firstOccur (xs.filter (fun y => y != x))
termination_by l => l.length
decreasing_by
  simp only [List.length_cons]
  exact Nat.lt_succ_of_le (List.length_filter_le _ xs)

theorem buildNumsT_keys (bs : List String) :
    ∀ (m : List (String × Nat)) (c : Nat),
    (buildNumsT bs m c).map Prod.fst
      = m.map Prod.fst ++ firstOccur (bs.filter (fun b => (m.lookup b).isNone)) := by
  induction bs with
  | nil => intro m c; simp [buildNumsT, firstOccur]
  | cons f rest ih =>
    intro m c
    cases hf : m.lookup f with
    | some v =>
      simp only [buildNumsT, hf]
      rw [ih m c]
      simp [List.filter_cons, hf]
    | none =>
      simp only [buildNumsT, hf]
      rw [ih (m ++ [(f, c)]) (c + 1)]
      have hpt : rest.filter (fun b => ((m ++ [(f, c)]).lookup b).isNone)
          = rest.filter (fun b => (b != f) && (m.lookup b).isNone) :=
        List.filter_congr (fun x _ => lookup_append_single_isNone m f x c)
      rw [hpt]
      simp [List.filter_cons, hf, firstOccur, List.filter_filter, List.map_append,
        List.append_assoc]

theorem buildNumsT_values (bs : List String) :
    ∀ (m : List (String × Nat)) (c : Nat),
    m.map Prod.snd = List.range' 1 m.length → c = m.length + 1 →
    (buildNumsT bs m c).map Prod.snd = List.range' 1 (buildNumsT bs m c).length := by
  induction bs with
  | nil => intro m c h1 _; simpa [buildNumsT] using h1
  | cons f rest ih =>
    intro m c h1 h2
    cases hf : m.lookup f with
    | some v => simp only [buildNumsT, hf]; exact ih m c h1 h2
    | none =>
      simp only [buildNumsT, hf]
      apply ih
      · rw [List.map_append, h1, List.length_append]
        simp only [List.map_cons, List.map_nil, List.length_cons, List.length_nil]
        rw [range'_one_concat]
        simp [h2, Nat.add_comm]
      · simp [h2, List.length_append]


theorem buildNumsT_lookup_mono (bs : List String) :
    ∀ (m : List (String × Nat)) (c : Nat) (a : String) (v : Nat),
    m.lookup a = some v → (buildNumsT bs m c).lookup a = some v := by
  induction bs with
  | nil => intro m c a v h; simpa [buildNumsT] using h
  | cons f rest ih =>
    intro m c a v h
    cases hf : m.lookup f with
    | some w => simp only [buildNumsT, hf]; exact ih m c a v h
    | none =>
      simp only [buildNumsT, hf]
      apply ih
      rw [lookup_append, h]
      rfl

theorem buildNumsT_total (bs : List String) :
    ∀ (m : List (String × Nat)) (c : Nat) (f : String), f ∈ bs →
    ((buildNumsT bs m c).lookup f).isSome = true := by
  induction bs with
  | nil => intro _ _ _ h; cases h
  | cons g rest ih =>
    intro m c f hf
    cases hg : m.lookup g with
    | some w =>
      simp only [buildNumsT, hg]
      rcases List.mem_cons.mp hf with rfl | hmem
      · rw [buildNumsT_lookup_mono rest m c f w hg]; rfl
      · exact ih m c f hmem
    | none =>
      simp only [buildNumsT, hg]
      rcases List.mem_cons.mp hf with rfl | hmem
      · have hone : (m ++ [(f, c)]).lookup f = some c := by
          rw [lookup_append, hg]
          simp [Option.or, List.lookup]
        rw [buildNumsT_lookup_mono rest _ _ f c hone]; rfl
      · exact ih _ _ f hmem

/-- C3: the document-number assignment of process_pdfs maps the basename
of every resolved hyperlink to a number; two identical basenames always
receive the same number and two different basenames never share one; the
numbers are the serial values 1, 2, 3 and so on; and the basenames are
numbered in first-encounter order. -/
theorem document_numbering_first_encounter (pdfs : List (String × String))
    (a b : String) (ka kb : Nat)
    (ha : (unique_filenames pdfs).lookup a = some ka)
    (hb : (unique_filenames pdfs).lookup b = some kb) :
    (ka = kb ↔ a = b) ∧
    (pdfs.all (fun p => ((unique_filenames pdfs).lookup (basename p.2)).isSome)) = true ∧
    (unique_filenames pdfs).map Prod.snd = List.range' 1 (unique_filenames pdfs).length ∧
    (unique_filenames pdfs).map Prod.fst = firstOccur (pdfs.map (fun p => basename p.2)) := by
  have hvals : (unique_filenames pdfs).map Prod.snd
      = List.range' 1 (unique_filenames pdfs).length :=
    buildNumsT_values _ [] 1 (by simp) (by simp)
  refine ⟨⟨?_, ?_⟩, ?_, hvals, ?_⟩
  · intro hk
    have hma : (a, ka) ∈ unique_filenames pdfs := mem_of_lookup_eq_some _ a ka ha
    have hmb : (b, kb) ∈ unique_filenames pdfs := mem_of_lookup_eq_some _ b kb hb
    have hnd : ((unique_filenames pdfs).map Prod.snd).Nodup := by
      rw [hvals]; exact List.nodup_range' 1 _
    have hpair := List.inj_on_of_nodup_map hnd hma hmb (by simpa using hk)
    exact congrArg Prod.fst hpair
  · intro hab
    subst hab
    rw [ha] at hb
    exact Option.some.inj hb
  · rw [List.all_eq_true]
    intro p hp
    exact buildNumsT_total _ [] 1 _ (List.mem_map_of_mem _ hp)
  · have hkeys := buildNumsT_keys (pdfs.map (fun p => basename p.2)) [] 1
    simpa using hkeys

/-- Witness for C3 at a concrete input: three resolved links whose
basenames are a.pdf, b.pdf and again a.pdf receive the numbers 1, 2
and 1. -/
theorem document_numbering_first_encounter_witness :
    (unique_filenames [("t", "docs/a.pdf"), ("u", "b.pdf"), ("v", "a.pdf")]).lookup "a.pdf"
        = some 1 ∧
    (unique_filenames [("t", "docs/a.pdf"), ("u", "b.pdf"), ("v", "a.pdf")]).lookup "b.pdf"
        = some 2 ∧
    ((1 = 2 ↔ "a.pdf" = "b.pdf") ∧
      (([("t", "docs/a.pdf"), ("u", "b.pdf"), ("v", "a.pdf")] : List (String × String)).all
        (fun p =>
          ((unique_filenames [("t", "docs/a.pdf"), ("u", "b.pdf"), ("v", "a.pdf")]).lookup
            (basename p.2)).isSome)) = true ∧
      (unique_filenames [("t", "docs/a.pdf"), ("u", "b.pdf"), ("v", "a.pdf")]).map Prod.snd
        = List.range' 1
            (unique_filenames [("t", "docs/a.pdf"), ("u", "b.pdf"), ("v", "a.pdf")]).length ∧
      (unique_filenames [("t", "docs/a.pdf"), ("u", "b.pdf"), ("v", "a.pdf")]).map Prod.fst
        = firstOccur
            (([("t", "docs/a.pdf"), ("u", "b.pdf"), ("v", "a.pdf")] : List (String × String)).map
              (fun p => basename p.2))) :=
  ⟨rfl, rfl,
    document_numbering_first_encounter
      [("t", "docs/a.pdf"), ("u", "b.pdf"), ("v", "a.pdf")] "a.pdf" "b.pdf" 1 2 rfl rfl⟩

/-!  Link extraction, extract_hyperlinks lines 338 to 349.

A parsed document is the ordered sequence of its hyperlink elements (the
nested paragraph loops flattened in document order) together with the
relationship table.  The percent-decoding, stripping and path
normalization applied to a relationship target (urllib.parse.unquote,
str.strip and os.path.normpath) are opaque library collaborators and are
abstracted as a decode parameter; the claims hold for every decode, in
particular for the real one.  -/

/-- One w:hyperlink element: its contained run-text fragments and its
optional relationship id attribute (absent attribute is none; Python also
treats an empty id as falsy). -/
structure Hyperlink where
  runTexts : List String
  relId : Option String

/-- A parsed document: hyperlink elements in document order plus the
relationship table. -/
structure WordDoc where
  hyperlinks : List Hyperlink
  rels : List (String × String)

/-- link_text at line 343: the concatenated run text, or the default
when the concatenation is empty. -/
def linkText (h : Hyperlink) : String :=
  let t := String.join h.runTexts
  if t = "" then "Unnamed Link" else t

/-- Lines 344 to 346: resolve the relationship id against the table and
decode the target; a missing or empty id, or an id absent from the table,
yields nothing. -/
def resolveTarget (decode : String → String) (rels : List (String × String))
    (h : Hyperlink) : Option String :=
  match h.relId with
  | none => none
  | some r =>
    if r = "" then none
    else
      match rels.lookup r with
      | some target => some (decode target)
      | none => none

/-- extract_hyperlinks, lines 338 to 349: keep a (link text, url) pair for
every hyperlink whose decoded target lowercase-ends with the pdf
extension. -/
def extract_hyperlinks (decode : String → String) (doc : WordDoc) :
    List (String × String) :=
  doc.hyperlinks.filterMap (fun h =>
    match resolveTarget decode doc.rels h with
    | some url =>
      if pyEndsWith (pyLower url) ".pdf" then some (linkText h, url) else none
    | none => none)

/-- All hyperlinks of the document that resolve to a target, in document
order, before the pdf-extension test. -/
def resolvedLinks (decode : String → String) (doc : WordDoc) :
    List (String × String) :=
  doc.hyperlinks.filterMap (fun h =>
    (resolveTarget decode doc.rels h).map (fun url => (linkText h, url)))

theorem pyEndsWith_upper_lower (s : String) (h : pyEndsWith s ".PDF" = true) :
    pyEndsWith (pyLower s) ".pdf" = true := by
  have hs : ".PDF".data <:+ s.data := of_decide_eq_true h
  have hm := List.IsSuffix.map Char.toLower hs
  have he : ".PDF".data.map Char.toLower = ".pdf".data := by decide
  rw [he] at hm
  unfold pyEndsWith pyLower
  exact decide_eq_true hm

theorem extract_eq_filter_resolved (decode : String → String) (doc : WordDoc) :
    extract_hyperlinks decode doc
      = (resolvedLinks decode doc).filter (fun p => pyEndsWith (pyLower p.2) ".pdf") := by
  unfold extract_hyperlinks resolvedLinks
  induction doc.hyperlinks with
  | nil => rfl
  | cons h t ih =>
    simp only [List.filterMap_cons]
    cases hr : resolveTarget decode doc.rels h with
    | none => simpa using ih
    | some url =>
      cases hp : pyEndsWith (pyLower url) ".pdf" with
      | true => simp [hp, List.filter_cons, ih]
      | false => simp [hp, List.filter_cons, ih]

/-- C5: the link extractor keeps exactly the resolved hyperlinks whose
decoded target lowercase-ends with the pdf extension, in document order
with duplicates allowed; an upper-case .PDF suffix still lowercase-ends
with .pdf, so such targets are included; and the display text defaults to
the Unnamed Link label exactly when the concatenated run text is empty. -/
theorem link_extractor_keeps_exactly_pdf_targets (decode : String → String)
    (doc : WordDoc) (s : String) (h : Hyperlink)
    (hPDF : pyEndsWith s ".PDF" = true) :
    extract_hyperlinks decode doc
      = (resolvedLinks decode doc).filter (fun p => pyEndsWith (pyLower p.2) ".pdf") ∧
    pyEndsWith (pyLower s) ".pdf" = true ∧
    linkText h
      = (if String.join h.runTexts = "" then "Unnamed Link" else String.join h.runTexts) :=
  ⟨extract_eq_filter_resolved decode doc, pyEndsWith_upper_lower s hPDF, rfl⟩

/-- Concrete document for the C5 witness: one link resolving to an
upper-case .PDF target, one resolving to a non-pdf target. -/
def sampleDoc : WordDoc :=
  ⟨[⟨["x"], some "r1"⟩, ⟨[], some "r2"⟩], [("r1", "a.PDF"), ("r2", "b.txt")]⟩

/-- Witness for C5 at a concrete input: on sampleDoc with the identity
decode, the extractor output is the filtered resolved sequence, the
upper-case target c.PDF passes the lowercase test, and the empty-text
hyperlink gets the default label. -/
theorem link_extractor_keeps_exactly_pdf_targets_witness :
    pyEndsWith "c.PDF" ".PDF" = true ∧
    (extract_hyperlinks (fun t => t) sampleDoc
        = (resolvedLinks (fun t => t) sampleDoc).filter
            (fun p => pyEndsWith (pyLower p.2) ".pdf") ∧
      pyEndsWith (pyLower "c.PDF") ".pdf" = true ∧
      linkText ⟨[], none⟩
        = (if String.join ([] : List String) = "" then "Unnamed Link"
            else String.join ([] : List String))) :=
  ⟨by decide,
    link_extractor_keeps_exactly_pdf_targets (fun t => t) sampleDoc "c.PDF" ⟨[], none⟩
      (by decide)⟩

/-!  Filesystem reconciliation, process_word_file lines 279 to 287.

The loop appends each link to existing_pdfs or missing_pdfs according to
the existence of sourceDir slash basename(target); os.path.exists on the
joined path is the opaque collaborator, abstracted as a predicate on the
basename.  -/

/-- The partition loop of process_word_file: fold over the links,
appending to the resolved or the unresolved accumulator. -/
def process_word_file_partition (fs : String → Bool) (links : List (String × String)) :
    List (String × String) × List (String × String) :=
  links.foldl
    (fun acc l =>
      if fs (basename l.2) then (acc.1 ++ [l], acc.2) else (acc.1, acc.2 ++ [l]))
    ([], [])

theorem partition_foldl_eq_filter (fs : String → Bool) :
    ∀ (links : List (String × String)) (a b : List (String × String)),
    links.foldl
        (fun acc l =>
          if fs (basename l.2) then (acc.1 ++ [l], acc.2) else (acc.1, acc.2 ++ [l]))
        (a, b)
      = (a ++ links.filter (fun l => fs (basename l.2)),
         b ++ links.filter (fun l => !(fs (basename l.2)))) := by
  intro links
  induction links with
  | nil => intro a b; simp
  | cons l t ih =>
    intro a b
    cases hp : fs (basename l.2) with
    | true => simp [List.foldl_cons, hp, ih, List.filter_cons, List.append_assoc]
    | false => simp [List.foldl_cons, hp, ih, List.filter_cons, List.append_assoc]

theorem length_filter_split (p : (String × String) → Bool) (l : List (String × String)) :
    (l.filter p).length + (l.filter (fun x => !(p x))).length = l.length := by
  induction l with
  | nil => rfl
  | cons x t ih =>
    cases hp : p x <;> simp [List.filter_cons, hp] <;> omega

/-- C6: the reconciler returns the sub-sequence of links whose basename
exists in the source directory and the sub-sequence of those whose does
not, each in input order; the two lengths sum to the input length and
every input link belongs to exactly one of the two sides. -/
theorem reconciler_partitions_input (fs : String → Bool)
    (links : List (String × String)) :
    process_word_file_partition fs links
      = (links.filter (fun l => fs (basename l.2)),
         links.filter (fun l => !(fs (basename l.2)))) ∧
    (process_word_file_partition fs links).1.length
        + (process_word_file_partition fs links).2.length = links.length ∧
    (links.all (fun l =>
        decide (l ∈ (process_word_file_partition fs links).1)
          != decide (l ∈ (process_word_file_partition fs links).2))) = true := by
  have h1 : process_word_file_partition fs links
      = (links.filter (fun l => fs (basename l.2)),
         links.filter (fun l => !(fs (basename l.2)))) := by
    unfold process_word_file_partition
    simpa using partition_foldl_eq_filter fs links [] []
  refine ⟨h1, ?_, ?_⟩
  · rw [h1]
    exact length_filter_split _ links
  · rw [List.all_eq_true]
    intro l hl
    rw [h1]
    cases hp : fs (basename l.2) <;> simp [List.mem_filter, hl, hp]


/-!  PDF transformation, process_pdfs lines 527 to 545.

A PDF is its ordered list of pages (pages are abstract; the PDF library is
an opaque collaborator).  PdfWriter starts empty, add_page appends one
page, and the cover branch adds page 0 of the generated cover and then
every page of the source in order.  Reading page 0 of an empty document
raises, hence the Option.  -/

/-- The cover branch of process_pdfs: page 0 of the cover document
followed by all source pages in order, written as the output. -/
def write_pdf_with_cover {α : Type} (cover original : List α) : Option (List α) :=
  match cover with
  | [] => none
  | c :: _ => some (original.foldl (fun w p => w ++ [p]) [c])

theorem foldl_append_one {α : Type} :
    ∀ (l acc : List α), l.foldl (fun w p => w ++ [p]) acc = acc ++ l := by
  intro l
  induction l with
  | nil => intro acc; simp
  | cons x t ih => intro acc; simp [List.foldl_cons, ih]

/-- C7: whenever the cover branch produces an output, the output has one
page more than the source document, its page 0 is the cover's page 0, and
the remaining pages are the source pages in their original order. -/
theorem cover_merge_prepends_one_page {α : Type} (cover original out : List α)
    (h : write_pdf_with_cover cover original = some out) :
    out.length = original.length + 1 ∧
    out.head? = cover.head? ∧
    out.tail = original := by
  cases cover with
  | nil => simp [write_pdf_with_cover] at h
  | cons c rest =>
    simp only [write_pdf_with_cover] at h
    rw [foldl_append_one] at h
    have hout : out = c :: original := by simpa using h.symm
    subst hout
    simp

/-- Witness for C7 at a concrete input: a one-page cover merged with a
two-page source gives the three-page concatenation. -/
theorem cover_merge_prepends_one_page_witness :
    write_pdf_with_cover [(0 : Nat)] [1, 2] = some [0, 1, 2] ∧
    (([0, 1, 2] : List Nat).length = ([1, 2] : List Nat).length + 1 ∧
      ([0, 1, 2] : List Nat).head? = ([0] : List Nat).head? ∧
      ([0, 1, 2] : List Nat).tail = [1, 2]) :=
  ⟨rfl, cover_merge_prepends_one_page [0] [1, 2] [0, 1, 2] rfl⟩

/-!  Error handling of the transformer batch, process_pdfs lines 506
to 555.

Every loop iteration wraps its work in try and except: when the primary
work (cover creation, source read, output write, or the plain copy)
raises, the except arm attempts shutil.copy of the source to the
destination inside a nested try whose except arm is pass.  Whether each
Python operation raises is an environment fact, modelled as two prior
flags per item: the first says the primary work raises, the second says
the fallback copy raises too.  The trace records what lands per item.  -/

/-- What one loop iteration of process_pdfs did: wrote a transformed
output, copied the source verbatim (the no-cover branch), or attempted
the last-resort fallback copy with its outcome. -/
inductive CopyAttempt where
  | transformed (dest : String)
  | plainCopied (dest : String)
  | fallback (src dest : String) (ok : Bool)
deriving DecidableEq

/-- One iteration of the loop, lines 526 to 555: the try body either
transforms (cover branch) or copies, and on a raise the except arm
attempts the fallback copy, succeeding or not. -/
def processOneItem (add_cover : Bool) (primary_raises fallback_raises : Bool)
    (src dst : String) : CopyAttempt :=
  if primary_raises then CopyAttempt.fallback src dst (!fallback_raises)
  else if add_cover then CopyAttempt.transformed dst
  else CopyAttempt.plainCopied dst

/-- The whole batch loop of process_pdfs: a fold over the resolved items,
each item carrying its two raise flags, collecting the per-item trace.
Source and destination paths are composed as in lines 509 and 517. -/
def process_pdfs_trace (enable_renaming add_cover : Bool) (central destF : String)
    (items : List ((String × String) × Bool × Bool)) : List CopyAttempt :=
  let m := unique_filenames (items.map Prod.fst)
  items.foldl
    (fun tr it =>
      tr ++ [processOneItem add_cover it.2.1 it.2.2
        (central ++ "/" ++ basename it.1.2)
        (destF ++ "/" ++ process_pdfs_new_name enable_renaming m it.1.2)])
    []

theorem foldl_append_singleton {α β : Type} (g : α → β) :
    ∀ (l : List α) (acc : List β),
    l.foldl (fun tr x => tr ++ [g x]) acc = acc ++ l.map g := by
  intro l
  induction l with
  | nil => intro acc; simp
  | cons x t ih => intro acc; simp [List.foldl_cons, ih]

theorem zip_map_self {α β : Type} (g : α → β) :
    ∀ (l : List α) (q : α × β), q ∈ l.zip (l.map g) → q.2 = g q.1 := by
  intro l
  induction l with
  | nil => intro q hq; simp [List.zip] at hq
  | cons x t ih =>
    intro q hq
    simp only [List.map_cons, List.zip_cons_cons, List.mem_cons] at hq
    rcases hq with rfl | hq
    · rfl
    · exact ih q hq

/-- C8: the transformer batch produces exactly one trace entry per
resolved item, whatever raises, so no failing item aborts the batch or
removes later items; and every item whose primary work raises gets a
fallback copy attempt of its source to its destination path, recorded
whether or not that copy itself succeeds. -/
theorem transformer_batch_never_aborts (enable_renaming add_cover : Bool)
    (central destF : String) (items : List ((String × String) × Bool × Bool)) :
    (process_pdfs_trace enable_renaming add_cover central destF items).length
        = items.length ∧
    ((items.zip (process_pdfs_trace enable_renaming add_cover central destF items)).all
        (fun q => !q.1.2.1 ||
          (q.2 == CopyAttempt.fallback
            (central ++ "/" ++ basename q.1.1.2)
            (destF ++ "/" ++ process_pdfs_new_name enable_renaming
              (unique_filenames (items.map Prod.fst)) q.1.1.2)
            (!q.1.2.2)))) = true := by
  have htr : process_pdfs_trace enable_renaming add_cover central destF items
      = items.map (fun it => processOneItem add_cover it.2.1 it.2.2
          (central ++ "/" ++ basename it.1.2)
          (destF ++ "/" ++ process_pdfs_new_name enable_renaming
            (unique_filenames (items.map Prod.fst)) it.1.2)) := by
    unfold process_pdfs_trace
    simpa using foldl_append_singleton _ items []
  constructor
  · rw [htr]; simp
  · rw [htr, List.all_eq_true]
    intro q hq
    have hq2 := zip_map_self _ items q hq
    cases hf : q.1.2.1 with
    | false => simp [hf]
    | true =>
      rw [hq2]
      simp [processOneItem, hf]

/-!  Report rows, save_links_to_xlsx lines 351 to 405.

The status dicts at lines 362 to 364 map each resolved or unresolved
target to a constant status string; the number dict at lines 377 to 384
maps each resolved target to the localized zero-padded number label.  One
row per original hyperlink is appended at lines 390 to 397.  -/

/-- existing_dict at line 363. -/
def existing_dict (existing : List (String × String)) : List (String × String) :=
  existing.map (fun p => (p.2, "Found"))

/-- missing_dict at line 364. -/
def missing_dict (missing : List (String × String)) : List (String × String) :=
  missing.map (fun p => (p.2, "Missing"))

/-- Status lookup at line 392: existing first, then missing, then the
default. -/
def statusOf (existing missing : List (String × String)) (url : String) : String :=
  match (existing_dict existing).lookup url with
  | some s => s
  | none =>
    match (missing_dict missing).lookup url with
    | some s => s
    | none => "Unknown"

/-- doc_number_dict built at lines 377 to 384: resolved target to its
localized zero-padded number label. -/
def doc_number_dict (existing : List (String × String)) : List (String × String) :=
  existing.map (fun p =>
    (p.2, localizedLabel
      ++ pad3 (((unique_filenames_report existing).lookup (basename p.2)).getD 0)))

/-- One data row of the All Links sheet, line 397. -/
structure ReportRow where
  link_text : String
  filename : String
  doc_number : String
  status : String
deriving DecidableEq

/-- The data rows appended by the loop at lines 390 to 397: one per
original hyperlink, with empty number label when the target has none. -/
def reportRows (all existing missing : List (String × String)) : List ReportRow :=
  all.map (fun l =>
    { link_text := l.1
      filename := basename l.2
      doc_number := ((doc_number_dict existing).lookup l.2).getD ""
      status := statusOf existing missing l.2 })


theorem lookup_map_keys_none {β : Type} (g : (String × String) → β) :
    ∀ (xs : List (String × String)) (u : String),
    ((xs.map (fun p => (p.2, g p))).lookup u) = none ↔ u ∉ xs.map Prod.snd := by
  intro xs u
  induction xs with
  | nil => simp [List.lookup]
  | cons p t ih =>
    simp only [List.map_cons, List.lookup]
    cases hup : u == p.2 with
    | true =>
      have hu : u = p.2 := by simpa using hup
      simp [hu]
    | false =>
      have hu : ¬ u = p.2 := by simpa using hup
      simp [hu, ih]

theorem lookup_map_keys_some {β : Type} (g : (String × String) → β) :
    ∀ (xs : List (String × String)) (u : String) (v : β),
    ((xs.map (fun p => (p.2, g p))).lookup u) = some v →
    ∃ p, p ∈ xs ∧ p.2 = u ∧ v = g p := by
  intro xs
  induction xs with
  | nil => intro u v h; simp [List.lookup] at h
  | cons p t ih =>
    intro u v h
    simp only [List.map_cons, List.lookup] at h
    cases hup : u == p.2 with
    | true =>
      rw [hup] at h
      have hu : u = p.2 := by simpa using hup
      have hv : v = g p := by simpa using h.symm
      exact ⟨p, List.mem_cons_self p t, hu.symm, hv⟩
    | false =>
      rw [hup] at h
      obtain ⟨q, hq, hq2, hqv⟩ := ih u v h
      exact ⟨q, List.mem_cons_of_mem p hq, hq2, hqv⟩

/-- C9: the report writer emits exactly one data row per original
hyperlink, duplicates and unresolved ones included, and every row whose
status is Missing carries an empty document-number cell. -/
theorem report_one_row_per_hyperlink (all existing missing : List (String × String)) :
    (reportRows all existing missing).length = all.length ∧
    ((reportRows all existing missing).all
        (fun r => !(r.status == "Missing") || (r.doc_number == ""))) = true := by
  constructor
  · simp [reportRows]
  · rw [List.all_eq_true]
    intro r hr
    unfold reportRows at hr
    obtain ⟨l, hl, rfl⟩ := List.mem_map.mp hr
    cases hst : (existing_dict existing).lookup l.2 with
    | some s =>
      have hs : s = "Found" := by
        obtain ⟨p, _, _, hv⟩ :=
          lookup_map_keys_some (fun _ => "Found") existing l.2 s hst
        exact hv
      have hsv : statusOf existing missing l.2 = "Found" := by
        simp only [statusOf, hst, hs]
      simp [hsv]
    | none =>
      have hnin : l.2 ∉ existing.map Prod.snd :=
        (lookup_map_keys_none (fun _ => "Found") existing l.2).mp hst
      have hnum : (doc_number_dict existing).lookup l.2 = none :=
        (lookup_map_keys_none
          (fun p => localizedLabel
            ++ pad3 (((unique_filenames_report existing).lookup (basename p.2)).getD 0))
          existing l.2).mpr hnin
      simp [hnum]

/-- C10: when the resolved and unresolved inputs of the report writer are
the two sides of the reconciler partition of the full hyperlink list,
every row status is Found or Missing: the Unknown default branch of the
status lookup is unreachable. -/
theorem report_status_never_unknown (fs : String → Bool)
    (all ex miss : List (String × String))
    (h : process_word_file_partition fs all = (ex, miss)) :
    ((reportRows all ex miss).all
        (fun r => (r.status == "Found") || (r.status == "Missing"))) = true := by
  have h1 : process_word_file_partition fs all
      = (all.filter (fun l => fs (basename l.2)),
         all.filter (fun l => !(fs (basename l.2)))) := by
    unfold process_word_file_partition
    simpa using partition_foldl_eq_filter fs all [] []
  rw [h1] at h
  have hex : all.filter (fun l => fs (basename l.2)) = ex := congrArg Prod.fst h
  have hmiss : all.filter (fun l => !(fs (basename l.2))) = miss := congrArg Prod.snd h
  rw [List.all_eq_true]
  intro r hr
  unfold reportRows at hr
  obtain ⟨l, hl, rfl⟩ := List.mem_map.mp hr
  cases hp : fs (basename l.2) with
  | true =>
    have hmem : l.2 ∈ ex.map Prod.snd := by
      rw [← hex]
      exact List.mem_map_of_mem _ (List.mem_filter.mpr ⟨hl, hp⟩)
    cases hst : (existing_dict ex).lookup l.2 with
    | none =>
      exact absurd hmem ((lookup_map_keys_none (fun _ => "Found") ex l.2).mp hst)
    | some s =>
      have hs : s = "Found" := by
        obtain ⟨p, _, _, hv⟩ := lookup_map_keys_some (fun _ => "Found") ex l.2 s hst
        exact hv
      have hsv : statusOf ex miss l.2 = "Found" := by
        simp only [statusOf, hst, hs]
      simp [hsv]
  | false =>
    have hnin : l.2 ∉ ex.map Prod.snd := by
      rw [← hex]
      intro hcon
      obtain ⟨q, hq, hq2⟩ := List.mem_map.mp hcon
      have hqf : fs (basename q.2) = true := (List.mem_filter.mp hq).2
      rw [hq2] at hqf
      rw [hp] at hqf
      cases hqf
    have hst : (existing_dict ex).lookup l.2 = none :=
      (lookup_map_keys_none (fun _ => "Found") ex l.2).mpr hnin
    have hmem : l.2 ∈ miss.map Prod.snd := by
      rw [← hmiss]
      refine List.mem_map_of_mem _ (List.mem_filter.mpr ⟨hl, ?_⟩)
      simp [hp]
    cases hst2 : (missing_dict miss).lookup l.2 with
    | none =>
      exact absurd hmem ((lookup_map_keys_none (fun _ => "Missing") miss l.2).mp hst2)
    | some s =>
      have hs : s = "Missing" := by
        obtain ⟨p, _, _, hv⟩ := lookup_map_keys_some (fun _ => "Missing") miss l.2 s hst2
        exact hv
      have hsv : statusOf ex miss l.2 = "Missing" := by
        simp only [statusOf, hst, hst2, hs]
      simp [hsv]

/-- Witness for C10 at a concrete input: two links, of which only the
first target exists, partitioned by the reconciler; both report rows get
Found or Missing. -/
theorem report_status_never_unknown_witness :
    process_word_file_partition (fun s => s == "a.pdf") [("t", "a.pdf"), ("u", "b.pdf")]
        = ([("t", "a.pdf")], [("u", "b.pdf")]) ∧
    ((reportRows [("t", "a.pdf"), ("u", "b.pdf")] [("t", "a.pdf")] [("u", "b.pdf")]).all
        (fun r => (r.status == "Found") || (r.status == "Missing"))) = true :=
  ⟨rfl,
    report_status_never_unknown (fun s => s == "a.pdf") [("t", "a.pdf"), ("u", "b.pdf")]
      [("t", "a.pdf")] [("u", "b.pdf")] rfl⟩

end PdfExtractor
